import Mathlib

/-
Verification model of the fast-penguin search endpoint
(`wiki-search-frontend/src/routes/api/search/+server.js`).

The file shallowly embeds the three pieces of the handler:
  * `reciprocalRankFusion` — the rank-fusion kernel (JS objects `scores`
    and `allResults` become insertion-ordered association lists, JS float
    arithmetic becomes exact `ℚ` arithmetic);
  * `fetchOgImage` — the og:image enrichment helper, with the network
    abstracted as a `FetchResult` outcome per URL;
  * `POST` — the mode-dispatching request handler, with the Turbopuffer
    client abstracted as a function from query options to either an error
    (a thrown exception) or a hit list.  `POST` also returns the list of
    backend calls it issued, so that "no backend call is made" is provable.

JSON-ish runtime values are modelled by `JsVal`; JavaScript truthiness,
`||`, loose `!= null`, `Array.prototype.slice` and string-keyed object
update semantics are modelled explicitly.  Object keys are compared as
values rather than via JS string coercion; this agrees with the code for
any ids that do not mix colliding types (e.g. the number 1 and the
string "1"), and similarly we rely on the ids in play not being
integer-like property keys, whose enumeration order JS would change —
no theorem below depends on tie-break enumeration order.
-/

set_option allowUnsafeReducibility true
attribute [semireducible] Rat.add Rat.mul Rat.inv Rat.sub

/-- A primitive JavaScript value (an element of a request array).  The
handler only ever asks `typeof x === 'number'` of array elements, so
nesting below one array level is not needed. -/
inductive JsPrim where
  | undef
  | null
  | bool (b : Bool)
  | num (q : ℚ)
  | str (s : String)
deriving DecidableEq

/-- A JavaScript runtime value, as far as the handler inspects one. -/
inductive JsVal where
  | undef
  | null
  | bool (b : Bool)
  | num (q : ℚ)
  | str (s : String)
  | arr (elems : List JsPrim)
deriving DecidableEq

/-- JavaScript truthiness (`Boolean(v)`), for the values of `JsVal`.
`NaN` does not arise because numbers are modelled as `ℚ`. -/
def truthy : JsVal → Bool
  | .undef => false
  | .null => false
  | .bool b => b
  | .num q => q != 0
  | .str s => s != ""
  | .arr _ => true

/-- JavaScript `a || b`. -/
def jsOr (a b : JsVal) : JsVal :=
  if truthy a then a else b

/-- `Array.isArray(v) && v.every(n => typeof n === 'number')`. -/
def isNumArray : JsVal → Bool
  | .arr xs => xs.all fun x => match x with | .num _ => true | _ => false
  | _ => false

/-- `s.trim()` — strip leading and trailing whitespace.  (JS trims the
full Unicode whitespace class; ASCII whitespace is what the claims
exercise.) -/
def jsTrim (s : String) : String :=
  ⟨((s.data.dropWhile Char.isWhitespace).reverse.dropWhile Char.isWhitespace).reverse⟩

/-- `typeof v === 'string' && v.trim() !== ''` (negation of the handler's
query-rejection test). -/
def isNonEmptyStr : JsVal → Bool
  | .str s => jsTrim s != ""
  | _ => false

/-- `v != null` (loose): false exactly for `null` and `undefined`.  Used by
the fusion loop as `item.id != null`. -/
def validId : JsVal → Bool
  | .undef => false
  | .null => false
  | _ => true

/-- `ToIntegerOrInfinity`, for the `JsVal`s that can reach `slice`.
String/array coercion is collapsed to 0 (the `NaN` route); no claim
passes a string or array as `top_k`. -/
def toIntOrInf : JsVal → Int
  | .num q => if q < 0 then -⌊-q⌋ else ⌊q⌋
  | .bool b => if b then 1 else 0
  | _ => 0

/-- `l.slice(0, endv)`: `undefined` means "to the end"; otherwise the end
index is coerced to an integer, negative values counting from the end. -/
def jsSlice {α : Type} (l : List α) (endv : JsVal) : List α :=
  match endv with
  | .undef => l
  | v =>
    let r := toIntOrInf v
    if r < 0 then l.take (l.length - r.natAbs) else l.take r.toNat

/-- The `attributes` of a backend hit, as far as the handler reads them
(`include_attributes: ['title', 'url']`). -/
structure Attrs where
  title : Option String
  url : Option String
deriving DecidableEq

/-- One result of a backend query: `{id, attributes, ...}`.  `distance` is
the hit's `distance` property (read by the response mapping) and `dist`
its `dist` property (overwritten by rank fusion); both may be absent. -/
structure Hit where
  id : JsVal
  attributes : Option Attrs
  distance : Option ℚ
  dist : Option ℚ
deriving DecidableEq

/-- Association-list lookup: `m[i]`, `none` when the key is absent. -/
def jsLookup {α : Type} : List (JsVal × α) → JsVal → Option α
  | [], _ => none
  | p :: t, i => if p.1 = i then some p.2 else jsLookup t i

/-- `m[i] = f(m[i])` on a JS object with (non-integer-like) keys: an
existing key keeps its position, a new key is appended. -/
def upsert {α : Type} : List (JsVal × α) → JsVal → (Option α → α) → List (JsVal × α)
  | [], i, f => [(i, f none)]
  | p :: t, i, f => if p.1 = i then (p.1, f (some p.2)) :: t else p :: upsert t i f

/-- The two accumulators of `reciprocalRankFusion`: `scores` and
`allResults`. -/
abbrev RrfState := List (JsVal × ℚ) × List (JsVal × Hit)

/-- The body of the fusion loop for one `item` at 1-based `rank`:
`if (item && item.id != null) { scores[id] += 1/(k+rank); allResults[id] = item }`. -/
def rrfStep (k : ℚ) (rank : ℕ) (item : Hit) (st : RrfState) : RrfState :=
  if validId item.id then
    (upsert st.1 item.id (fun prev => prev.getD 0 + 1 / (k + (rank : ℚ))),
     upsert st.2 item.id (fun _ => item))
  else st

/-- `for (let rank = 1; rank <= results.length; rank++) ...` starting at
a given rank (called with rank 1). -/
def rrfList (k : ℚ) : List Hit → ℕ → RrfState → RrfState
  | [], _, st => st
  | item :: rest, rank, st => rrfList k rest (rank + 1) (rrfStep k rank item st)

/-- `for (const results of resultLists) { if (results) ... }` — a `none`
list is skipped by the `if (results)` guard. -/
def rrfAll (k : ℚ) : List (Option (List Hit)) → RrfState → RrfState
  | [], st => st
  | none :: rest, st => rrfAll k rest st
  | some results :: rest, st => rrfAll k rest (rrfList k results 1 st)

/-- Stable insertion of a `(docId, score)` entry into a list sorted by
descending score (the earlier element wins ties, as a stable
`sort(([,a],[,b]) => b - a)` does). -/
def insertDesc (p : JsVal × ℚ) : List (JsVal × ℚ) → List (JsVal × ℚ)
  | [] => [p]
  | q :: t => if q.2 > p.2 then q :: insertDesc p t else p :: q :: t

/-- Stable sort of score entries by descending score. -/
def sortDesc : List (JsVal × ℚ) → List (JsVal × ℚ)
  | [] => []
  | x :: xs => insertDesc x (sortDesc xs)

/-- The final map of the fusion: look the scored id up in `allResults`
and write the fused score into the stored hit's `dist` property.  The
`none` branch is unreachable (every scored id has a stored hit). -/
def fuseEntry (allResults : List (JsVal × Hit)) (p : JsVal × ℚ) : Hit :=
  match jsLookup allResults p.1 with
  | some resultItem => {resultItem with dist := some p.2}
  | none => {id := p.1, attributes := none, distance := none, dist := some p.2}

/-- `reciprocalRankFusion(resultLists, k)`. -/
def reciprocalRankFusion (resultLists : List (Option (List Hit))) (k : ℚ) : List Hit :=
  let st := rrfAll k resultLists ([], [])
  (sortDesc st.1).map (fuseEntry st.2)

/-- The contribution of the hits of one list, ranked from `r` on, to the
fused score of id `i`: `1/(k+rank)` for each valid occurrence of `i`. -/
def contrib (k : ℚ) (i : JsVal) : List Hit → ℕ → ℚ
  | [], _ => 0
  | h :: t, r => (if validId h.id = true ∧ h.id = i then 1 / (k + (r : ℚ)) else 0) + contrib k i t (r + 1)

/-- Total contribution over a list of (possibly null) result lists. -/
def contribAll (k : ℚ) (i : JsVal) : List (Option (List Hit)) → ℚ
  | [] => 0
  | none :: rest => contribAll k i rest
  | some l :: rest => contrib k i l 1 + contribAll k i rest

/-- All hits of the non-null result lists, in traversal order. -/
def flatHits : List (Option (List Hit)) → List Hit
  | [] => []
  | none :: rest => flatHits rest
  | some l :: rest => l ++ flatHits rest

/-- The score entries a list of fresh-id hits adds, in order. -/
def scoreRow (k : ℚ) : ℕ → List Hit → List (JsVal × ℚ)
  | _, [] => []
  | r, h :: t => (h.id, 1 / (k + (r : ℚ))) :: scoreRow k (r + 1) t

/-- The `allResults` entries a list of hits adds, in order. -/
def hitRow (l : List Hit) : List (JsVal × Hit) :=
  l.map fun h => (h.id, h)

/-- The pure rank-to-score transform of a single list: each hit with its
`dist` replaced by `1/(k+rank)`. -/
def rankScored (k : ℚ) : ℕ → List Hit → List Hit
  | _, [] => []
  | r, h :: t => {h with dist := some (1 / (k + (r : ℚ)))} :: rankScored k (r + 1) t

/-- `scores[i] || 0`: the accumulated score of `i`, 0 when absent. -/
def lookupD (m : List (JsVal × ℚ)) (i : JsVal) : ℚ :=
  (jsLookup m i).getD 0

/-- The 1-based rank of id `i` in a hit list (rank 1 = first). -/
def rankIn (l : List Hit) (i : JsVal) : ℕ :=
  (l.map (·.id)).indexOf i + 1

/-- What the page fetch inside `fetchOgImage` can yield: a thrown error,
the 5-second abort, or a response with an ok-flag, a content type and the
`content` attribute of the page's `meta[property="og:image"]` tag (if the
markup has one). -/
structure Page where
  ok : Bool
  contentType : Option String
  ogImageContent : Option String
deriving DecidableEq

/-- Outcome of fetching one URL. -/
inductive FetchResult where
  | err
  | timeout
  | page (p : Page)
deriving DecidableEq

/-- `a.startsWith(b)` on character lists. -/
def charsStartWith : List Char → List Char → Bool
  | _, [] => true
  | [], _ :: _ => false
  | a :: as, b :: bs => a == b && charsStartWith as bs

/-- `s.includes(pat)` — substring containment, as used by
`contentType.includes('text/html')`. -/
def strIncludes (s pat : String) : Bool :=
  go s.toList
where
  go : List Char → Bool
    | [] => charsStartWith [] pat.toList
    | c :: rest => charsStartWith (c :: rest) pat.toList || go rest

/-- `url.startsWith('http')` etc. -/
def strStarts (s pre : String) : Bool :=
  charsStartWith s.toList pre.toList

/-- `fetchOgImage(url)`, with the network call abstracted by `outcome`.
Every error path of the source (invalid url, thrown fetch error, abort,
non-ok status, non-HTML content type, missing/invalid og:image tag)
returns `none`; the function is total, which is the embedding of "never
raises to its caller". -/
def fetchOgImage (url : Option String) (outcome : FetchResult) : Option String :=
  match url with
  | none => none                      -- `!url` (undefined)
  | some u =>
    if u = "" then none               -- `!url` (empty string)
    else if ¬ strStarts u "http" then none
    else
      match outcome with
      | .err => none                  -- caught in the `catch` block
      | .timeout => none              -- caught `AbortError`
      | .page p =>
        if ¬ p.ok then none
        else
          match p.contentType with
          | none => none
          | some ct =>
            if ¬ strIncludes ct "text/html" then none
            else
              match p.ogImageContent with
              | none => none
              | some imageUrl =>
                if imageUrl ≠ "" ∧ strStarts imageUrl "http" then some imageUrl
                else none

/-- The parsed JSON request body, as far as the handler reads it.  A field
a client did not send is `.undef`. -/
structure RequestData where
  mode : JsVal
  search_type : JsVal
  query : JsVal
  vector : JsVal
  top_k : JsVal
deriving DecidableEq

/-- Options of one Turbopuffer `ns.query(...)` call.  A field the source
never sets (or `delete`s) is `none`; `top_k` is kept as the raw `JsVal`
because the hybrid branch passes the request's value through unchanged. -/
structure QueryOptions where
  top_k : JsVal
  include_attributes : List String
  vector : Option JsVal
  distance_metric : Option String
  rank_by : Option (String × String × JsVal)
  filters : Option (String × String × JsVal)
deriving DecidableEq

/-- An entry of the JSON response body. -/
structure ResponseEntry where
  id : JsVal
  title : String
  url : String
  ogImage : Option String
  distance : Option ℚ
deriving DecidableEq

/-- The HTTP response: a 200 result array, or an error status with a
message and optional `details`. -/
inductive Response where
  | results (entries : List ResponseEntry)
  | error (status : ℕ) (msg : String) (details : Option String)
deriving DecidableEq

/-- `v || d` for an optional string against a string default, as in
`attributes.title || 'N/A'` (an empty string is falsy). -/
def jsStrOr (v : Option String) (d : String) : String :=
  match v with
  | some s => if s = "" then d else s
  | none => d

/-- The per-result response mapping (identical in the hybrid and
non-hybrid paths of the source): defaults for missing attributes, the
og:image fetch, and `distance: result.distance`. -/
def mkEntry (web : Option String → FetchResult) (result : Hit) : ResponseEntry :=
  let attributes := result.attributes.getD ⟨none, none⟩
  { id := result.id
    title := jsStrOr attributes.title "N/A"
    url := jsStrOr attributes.url "#"
    ogImage := fetchOgImage attributes.url (web attributes.url)
    distance := result.distance }

/-- The fulltext sub-query of the hybrid branch: `ns.query({rank_by:
['title','BM25',query], include_attributes: ['title','url'], top_k:
top_k_from_request})` — note the raw `top_k`. -/
def hybridFtsOptions (req : RequestData) : QueryOptions :=
  { top_k := req.top_k
    include_attributes := ["title", "url"]
    vector := none
    distance_metric := none
    rank_by := some ("title", "BM25", req.query)
    filters := none }

/-- The vector sub-query of the hybrid branch: `ns.query({vector,
include_attributes: ['title','url'], top_k: top_k_from_request})`. -/
def hybridVectorOptions (req : RequestData) : QueryOptions :=
  { top_k := req.top_k
    include_attributes := ["title", "url"]
    vector := some req.vector
    distance_metric := none
    rank_by := none
    filters := none }

/-- The options object built for the non-hybrid modes: the default
`top_k_from_request || 20`, then the per-mode fields (`delete`d fields
stay `none`). -/
def singleQueryOptions (mode : JsVal) (req : RequestData) : QueryOptions :=
  let base : QueryOptions :=
    { top_k := if truthy req.top_k then req.top_k else .num 20
      include_attributes := ["title", "url"]
      vector := none
      distance_metric := none
      rank_by := none
      filters := none }
  if mode = .str "semantic" then
    { base with vector := some req.vector, distance_metric := some "cosine_distance" }
  else if mode = .str "fulltext" then
    { base with rank_by := some ("title", "BM25", req.query) }
  else
    { base with filters := some ("title", "ContainsAllTokens", req.query) }

/-- Truthiness of the `TPUF_API_KEY` environment value (`undefined` or an
empty string are falsy). -/
def truthyKey : Option String → Bool
  | some s => s != ""
  | none => false

/-- The part of the handler after validation: the `TPUF_API_KEY` check,
then the mode-specific backend call(s), fusion, and response mapping.
Alongside the response it returns the list of backend calls issued. -/
def runSearch (mode : JsVal) (req : RequestData) (apiKey : Option String)
    (backend : QueryOptions → Except String (List Hit))
    (web : Option String → FetchResult) : Response × List QueryOptions :=
  if truthyKey apiKey = false then
    (.error 500 "Server configuration error" none, [])
  else if mode = .str "hybrid" then
    let ftsOptions := hybridFtsOptions req
    let vectorOptions := hybridVectorOptions req
    let callLog := [ftsOptions, vectorOptions]
    -- `Promise.all([ftsPromise, vectorPromise])`: both calls are issued;
    -- a rejection of either lands in the outer catch (500 with details).
    match backend ftsOptions, backend vectorOptions with
    | .error e, _ => (.error 500 "Internal Server Error" (some e), callLog)
    | .ok _, .error e => (.error 500 "Internal Server Error" (some e), callLog)
    | .ok ftsResult, .ok vectorResult =>
      let fusedResults := reciprocalRankFusion [some ftsResult, some vectorResult] 60
      let finalHybridResults := jsSlice fusedResults req.top_k
      (.results (finalHybridResults.map (mkEntry web)), callLog)
  else
    let queryOptions := singleQueryOptions mode req
    match backend queryOptions with
    | .error e => (.error 500 "Internal Server Error" (some e), [queryOptions])
    | .ok results =>
      -- `queryResult.vectors || queryResult || []` resolves to the result
      -- array itself, which is a truthy array, so the two defensive
      -- checks on it never fire.
      (.results (results.map (mkEntry web)), [queryOptions])

/-- The `POST` handler.  `body = none` models a request whose JSON failed
to parse; `apiKey` models `TPUF_API_KEY`; `backend` models the
Turbopuffer namespace's `query` (an `Except.error` is a thrown/rejected
call); `web` models the network behind `fetchOgImage`. -/
def POST (body : Option RequestData) (apiKey : Option String)
    (backend : QueryOptions → Except String (List Hit))
    (web : Option String → FetchResult) : Response × List QueryOptions :=
  match body with
  | none => (.error 400 "Invalid JSON body" none, [])
  | some req =>
    let mode := jsOr req.mode (jsOr req.search_type (.str "fulltext"))
    if mode = .str "semantic" then
      if ¬ isNumArray req.vector then
        (.error 400 "Semantic search requires a valid \"vector\" (array of numbers)." none, [])
      else runSearch mode req apiKey backend web
    else if mode = .str "fulltext" then
      if ¬ isNonEmptyStr req.query then
        (.error 400 "Fulltext search requires a non-empty \"query\" string." none, [])
      else runSearch mode req apiKey backend web
    else if mode = .str "phrase" then
      if ¬ isNonEmptyStr req.query then
        (.error 400 "Phrase search requires a non-empty \"query\" string." none, [])
      else runSearch mode req apiKey backend web
    else if mode = .str "hybrid" then
      if ¬ isNonEmptyStr req.query then
        (.error 400 "Hybrid search requires a non-empty \"query\" string." none, [])
      else if ¬ isNumArray req.vector then
        (.error 400 "Hybrid search requires a valid \"vector\" (array of numbers)." none, [])
      else runSearch mode req apiKey backend web
    else
      (.error 400 "Unsupported search mode." none, [])

/-! ### Concrete data used by the closed instances below -/

/-- Number of entries of a 200 response (0 for an error response). -/
def respLen : Response → ℕ
  | .results es => es.length
  | .error _ _ _ => 0

/-- The `distance` fields of a 200 response's entries. -/
def respDistances : Response → List (Option ℚ)
  | .results es => es.map (·.distance)
  | .error _ _ _ => []

/-- Whether a response is a 400 error. -/
def is400 : Response → Bool
  | .error 400 _ _ => true
  | _ => false

/-- A hit with id "x" and no other fields (rank 1 of both witness lists). -/
def hitXw : Hit := ⟨.str "x", none, none, none⟩

/-- A hit with id "a" and no other fields. -/
def hitAw : Hit := ⟨.str "a", none, none, none⟩

/-- Witness list A = [x, a]. -/
def listAw : List Hit := [hitXw, hitAw]

/-- Witness list B = [x]. -/
def listBw : List Hit := [hitXw]

/-- A single-list input for the order-preservation instance. -/
def listC4w : List Hit := [⟨.str "p", none, some 5, none⟩, ⟨.str "q", none, none, some 9⟩]

/-- A hybrid request with `top_k` absent. -/
def reqHybridNoTopK : RequestData := ⟨.str "hybrid", .undef, .str "cat", .arr [.num 1], .undef⟩

/-- 21 pairwise-distinct bare hits. -/
def hits21 : List Hit := (List.range 21).map fun j => ⟨.str (toString j), none, none, none⟩

/-- A backend double returning 21 hits to the BM25 sub-query and none to
the vector sub-query. -/
def backend21 : QueryOptions → Except String (List Hit) :=
  fun o => if o.rank_by.isSome then .ok hits21 else .ok []

/-- A web double on which every og:image fetch errors. -/
def webNone : Option String → FetchResult := fun _ => .err

/-- A semantic request whose vector is the empty array. -/
def reqSemanticEmptyVec : RequestData := ⟨.str "semantic", .undef, .undef, .arr [], .undef⟩

/-- A backend double returning no hits. -/
def backendEmpty : QueryOptions → Except String (List Hit) := fun _ => .ok []

/-- A hit whose backend `distance` property is 7 and `dist` property 3/2. -/
def hitDist7 : Hit := ⟨.str "a", some ⟨some "T", some "http://u"⟩, some 7, some (3 / 2)⟩

/-- A backend double returning `hitDist7` to the BM25 sub-query only. -/
def backendDist7 : QueryOptions → Except String (List Hit) :=
  fun o => if o.rank_by.isSome then .ok [hitDist7] else .ok []

/-- A backend double on which every call fails. -/
def backendFail : QueryOptions → Except String (List Hit) := fun _ => .error "boom"

/-- A hybrid request with no `vector` field. -/
def reqHybridNoVec : RequestData := ⟨.str "hybrid", .undef, .str "cat", .undef, .undef⟩

/-- A fulltext request. -/
def reqFulltextW : RequestData := ⟨.str "fulltext", .undef, .str "Albert Einstein", .undef, .undef⟩

/-- A hit with no attributes at all. -/
def hitBare : Hit := ⟨.str "a", none, none, none⟩

/-- A backend double returning the bare hit. -/
def backendBare : QueryOptions → Except String (List Hit) := fun _ => .ok [hitBare]

/-- The response entry the handler builds for `hitBare`. -/
def entryBare : ResponseEntry := ⟨.str "a", "N/A", "#", none, none⟩

/-- Two different attribute payloads for the same id. -/
def attrsOne : Attrs := ⟨some "T1", some "http://u1"⟩

/-- See `attrsOne`. -/
def attrsTwo : Attrs := ⟨some "T2", some "http://u2"⟩

/-- Id "x" carrying the first payload. -/
def hitXa : Hit := ⟨.str "x", some attrsOne, none, none⟩

/-- Id "x" carrying the second payload. -/
def hitXb : Hit := ⟨.str "x", some attrsTwo, none, none⟩

/-- A hit with a `null` id. -/
def hitNullId : Hit := ⟨.null, some attrsOne, none, none⟩

/-- Input lists where "x" occurs in both lists with different payloads and
a null-id hit is present. -/
def listsC10w : List (Option (List Hit)) := [some [hitXa], some [hitXb, hitNullId]]

/-- The single fused result of `listsC10w`: the second payload wins. -/
def fusedXb : Hit := {hitXb with dist := some (2 / 61)}

/-- A page whose fetch succeeds with an absolute og:image URL. -/
def pageOkW : Page := ⟨true, some "text/html; charset=utf-8", some "http://img.png"⟩

/-- A semantic request whose vector is not an array at all. -/
def reqSemanticBadVec : RequestData := ⟨.str "semantic", .undef, .undef, .null, .undef⟩

/-! ### Association-list lemmas -/

theorem jsLookup_upsert_self {α : Type} (m : List (JsVal × α)) (i : JsVal) (f : Option α → α) :
    jsLookup (upsert m i f) i = some (f (jsLookup m i)) := by
  induction m with
  | nil => simp [upsert, jsLookup]
  | cons p t ih =>
    by_cases h : p.1 = i
    · simp [upsert, jsLookup, h]
    · simp [upsert, jsLookup, h, ih]

theorem jsLookup_upsert_ne {α : Type} (m : List (JsVal × α)) (i j : JsVal) (f : Option α → α)
    (h : j ≠ i) : jsLookup (upsert m i f) j = jsLookup m j := by
  have hne : ¬ i = j := fun hh => h hh.symm
  induction m with
  | nil => simp [upsert, jsLookup, hne]
  | cons p t ih =>
    by_cases hp : p.1 = i
    · subst hp
      simp [upsert, jsLookup, hne]
    · simp [upsert, jsLookup, hp, ih]

theorem upsert_of_not_mem {α : Type} (m : List (JsVal × α)) (i : JsVal) (f : Option α → α)
    (h : i ∉ m.map Prod.fst) : upsert m i f = m ++ [(i, f none)] := by
  induction m with
  | nil => simp [upsert]
  | cons p t ih =>
    simp only [List.map_cons, List.mem_cons] at h
    push_neg at h
    have hne : ¬ p.1 = i := fun hh => h.1 hh.symm
    simp [upsert, hne, ih h.2]

theorem mem_keys_upsert {α : Type} (m : List (JsVal × α)) (i j : JsVal) (f : Option α → α) :
    j ∈ (upsert m i f).map Prod.fst ↔ j = i ∨ j ∈ m.map Prod.fst := by
  induction m with
  | nil => simp [upsert]
  | cons p t ih =>
    by_cases hp : p.1 = i
    · subst hp
      simp only [upsert, if_pos rfl, List.map_cons, List.mem_cons, if_true]
      tauto
    · simp only [upsert, if_neg hp, List.map_cons, List.mem_cons, ih]
      tauto

theorem nodup_keys_upsert {α : Type} (m : List (JsVal × α)) (i : JsVal) (f : Option α → α)
    (h : (m.map Prod.fst).Nodup) : ((upsert m i f).map Prod.fst).Nodup := by
  induction m with
  | nil => simp [upsert]
  | cons p t ih =>
    simp only [List.map_cons, List.nodup_cons] at h
    by_cases hp : p.1 = i
    · simpa [upsert, hp, List.nodup_cons] using h
    · simp only [upsert, if_neg hp, List.map_cons, List.nodup_cons]
      refine ⟨fun hmem => ?_, ih h.2⟩
      rcases (mem_keys_upsert t i p.1 f).mp hmem with h1 | h1
      · exact hp h1
      · exact h.1 h1

theorem mem_upsert {α : Type} (m : List (JsVal × α)) (i : JsVal) (f : Option α → α)
    (p : JsVal × α) (h : p ∈ upsert m i f) : p ∈ m ∨ (p.1 = i ∧ ∃ o, p.2 = f o) := by
  induction m with
  | nil =>
    simp only [upsert, List.mem_singleton] at h
    subst h
    exact Or.inr ⟨rfl, none, rfl⟩
  | cons q t ih =>
    by_cases hq : q.1 = i
    · simp only [upsert, if_pos hq, List.mem_cons] at h
      rcases h with h | h
      · subst h
        exact Or.inr ⟨hq, some q.2, rfl⟩
      · exact Or.inl (List.mem_cons_of_mem _ h)
    · simp only [upsert, if_neg hq, List.mem_cons] at h
      rcases h with h | h
      · exact Or.inl (h ▸ List.mem_cons_self _ _)
      · rcases ih h with h1 | h1
        · exact Or.inl (List.mem_cons_of_mem _ h1)
        · exact Or.inr h1

theorem jsLookup_eq_none {α : Type} (m : List (JsVal × α)) (i : JsVal)
    (h : i ∉ m.map Prod.fst) : jsLookup m i = none := by
  induction m with
  | nil => simp [jsLookup]
  | cons p t ih =>
    simp only [List.map_cons, List.mem_cons] at h
    push_neg at h
    have hne : ¬ p.1 = i := fun hh => h.1 hh.symm
    simp [jsLookup, hne, ih h.2]

theorem jsLookup_isSome {α : Type} (m : List (JsVal × α)) (i : JsVal)
    (h : i ∈ m.map Prod.fst) : ∃ x, jsLookup m i = some x := by
  induction m with
  | nil => simp at h
  | cons p t ih =>
    by_cases hp : p.1 = i
    · exact ⟨p.2, by simp [jsLookup, hp]⟩
    · simp only [List.map_cons, List.mem_cons] at h
      rcases h with h | h
      · exact absurd h.symm hp
      · obtain ⟨x, hx⟩ := ih h
        exact ⟨x, by simp [jsLookup, hp, hx]⟩

theorem mem_of_jsLookup {α : Type} (m : List (JsVal × α)) (i : JsVal) (x : α)
    (h : jsLookup m i = some x) : (i, x) ∈ m := by
  induction m with
  | nil => simp [jsLookup] at h
  | cons p t ih =>
    by_cases hp : p.1 = i
    · simp only [jsLookup, if_pos hp, Option.some.injEq] at h
      have : p = (i, x) := Prod.ext hp (by simpa using h)
      exact this ▸ List.mem_cons_self _ _
    · simp only [jsLookup, if_neg hp] at h
      exact List.mem_cons_of_mem _ (ih h)

theorem jsLookup_of_mem_nodup {α : Type} (m : List (JsVal × α)) (p : JsVal × α)
    (hn : (m.map Prod.fst).Nodup) (hp : p ∈ m) : jsLookup m p.1 = some p.2 := by
  induction m with
  | nil => simp at hp
  | cons q t ih =>
    simp only [List.map_cons, List.nodup_cons] at hn
    rcases List.mem_cons.mp hp with h | h
    · subst h
      simp [jsLookup]
    · have hne : q.1 ≠ p.1 := by
        intro he
        exact hn.1 (he ▸ List.mem_map_of_mem Prod.fst h)
      simp [jsLookup, hne, ih hn.2 h]

/-! ### Sort lemmas -/

theorem insertDesc_perm (p : JsVal × ℚ) (l : List (JsVal × ℚ)) :
    List.Perm (insertDesc p l) (p :: l) := by
  induction l with
  | nil => simp [insertDesc]
  | cons q t ih =>
    by_cases h : q.2 > p.2
    · simp only [insertDesc, if_pos h]
      exact ((ih.cons q).trans (List.Perm.swap p q t))
    · simp [insertDesc, if_neg h]

theorem sortDesc_perm (l : List (JsVal × ℚ)) : List.Perm (sortDesc l) l := by
  induction l with
  | nil => simp [sortDesc]
  | cons x xs ih =>
    exact (insertDesc_perm x (sortDesc xs)).trans (ih.cons x)

theorem sorted_insertDesc (p : JsVal × ℚ) (l : List (JsVal × ℚ))
    (h : l.Sorted (fun a b => b.2 ≤ a.2)) :
    (insertDesc p l).Sorted (fun a b => b.2 ≤ a.2) := by
  induction l with
  | nil => simp [insertDesc]
  | cons q t ih =>
    rcases List.sorted_cons.mp h with ⟨hq, ht⟩
    by_cases hc : q.2 > p.2
    · simp only [insertDesc, if_pos hc]
      refine List.sorted_cons.mpr ⟨?_, ih ht⟩
      intro b hb
      rcases List.mem_cons.mp ((insertDesc_perm p t).mem_iff.mp hb) with hb | hb
      · rw [hb]
        exact le_of_lt hc
      · exact hq b hb
    · simp only [insertDesc, if_neg hc]
      refine List.sorted_cons.mpr ⟨?_, h⟩
      intro b hb
      rcases List.mem_cons.mp hb with hb | hb
      · rw [hb]
        exact le_of_not_lt hc
      · exact le_trans (hq b hb) (le_of_not_lt hc)

theorem sorted_sortDesc (l : List (JsVal × ℚ)) :
    (sortDesc l).Sorted (fun a b => b.2 ≤ a.2) := by
  induction l with
  | nil => simp [sortDesc]
  | cons x xs ih => exact sorted_insertDesc x (sortDesc xs) ih

theorem insertDesc_eq_cons (p : JsVal × ℚ) (l : List (JsVal × ℚ))
    (h : ∀ q ∈ l, q.2 ≤ p.2) : insertDesc p l = p :: l := by
  cases l with
  | nil => rfl
  | cons q t =>
    have : ¬ q.2 > p.2 := not_lt.mpr (h q (List.mem_cons_self q t))
    simp [insertDesc, this]

theorem sortDesc_eq_self (l : List (JsVal × ℚ))
    (h : l.Sorted (fun a b => b.2 ≤ a.2)) : sortDesc l = l := by
  induction l with
  | nil => rfl
  | cons x xs ih =>
    rcases List.sorted_cons.mp h with ⟨hx, hxs⟩
    rw [sortDesc, ih hxs, insertDesc_eq_cons x xs hx]

/-! ### getLast? plumbing -/

theorem getLast?_cons_or {α : Type} (a : α) (l : List α) :
    (a :: l).getLast? = Option.or l.getLast? (some a) := by
  cases l with
  | nil => rfl
  | cons b t =>
    obtain ⟨x, hx⟩ := Option.isSome_iff_exists.mp (List.getLast?_isSome.mpr (List.cons_ne_nil b t))
    rw [List.getLast?_cons_cons, hx]
    rfl

theorem getLast?_append_or {α : Type} (l₁ l₂ : List α) :
    (l₁ ++ l₂).getLast? = Option.or l₂.getLast? l₁.getLast? := by
  induction l₁ with
  | nil => simp [Option.or_none]
  | cons a t ih =>
    rw [List.cons_append, getLast?_cons_or, ih, getLast?_cons_or, Option.or_assoc]

/-! ### Accumulation lemmas for the fusion loop -/

theorem rrfList_fst_lookupD (k : ℚ) (l : List Hit) (r : ℕ) (st : RrfState) (i : JsVal) :
    lookupD (rrfList k l r st).1 i = lookupD st.1 i + contrib k i l r := by
  induction l generalizing r st with
  | nil => simp [rrfList, contrib]
  | cons h t ih =>
    rw [rrfList, ih, contrib]
    have hstep : lookupD (rrfStep k r h st).1 i
        = lookupD st.1 i + (if validId h.id = true ∧ h.id = i then 1 / (k + (r : ℚ)) else 0) := by
      by_cases hv : validId h.id = true
      · by_cases hi : h.id = i
        · subst hi
          rw [if_pos ⟨hv, rfl⟩]
          simp only [rrfStep, if_pos hv, lookupD, jsLookup_upsert_self, Option.getD_some]
        · have hne : i ≠ h.id := fun hh => hi hh.symm
          simp only [rrfStep, if_pos hv, lookupD, jsLookup_upsert_ne _ _ _ _ hne]
          rw [if_neg (fun hc => hi hc.2), add_zero]
      · simp only [rrfStep, if_neg hv]
        rw [if_neg (fun hc => hv hc.1), add_zero]
    rw [hstep, add_assoc]

theorem rrfList_keys (k : ℚ) (l : List Hit) (r : ℕ) (st : RrfState) (j : JsVal) :
    j ∈ (rrfList k l r st).1.map Prod.fst ↔
      j ∈ st.1.map Prod.fst ∨ ∃ h ∈ l, validId h.id = true ∧ h.id = j := by
  induction l generalizing r st with
  | nil => simp [rrfList]
  | cons h t ih =>
    rw [rrfList, ih]
    have hstep : j ∈ (rrfStep k r h st).1.map Prod.fst ↔
        (validId h.id = true ∧ h.id = j) ∨ j ∈ st.1.map Prod.fst := by
      by_cases hv : validId h.id = true
      · simp only [rrfStep, if_pos hv, mem_keys_upsert]
        constructor
        · rintro (hj | hj)
          · exact Or.inl ⟨hv, hj.symm⟩
          · exact Or.inr hj
        · rintro (⟨_, hj⟩ | hj)
          · exact Or.inl hj.symm
          · exact Or.inr hj
      · simp only [rrfStep, if_neg hv]
        constructor
        · exact Or.inr
        · rintro (⟨hc, _⟩ | hj)
          · exact absurd hc hv
          · exact hj
    rw [hstep]
    constructor
    · rintro (h1 | h1)
      · rcases h1 with h1 | h1
        · exact Or.inr ⟨h, List.mem_cons_self h t, h1⟩
        · exact Or.inl h1
      · obtain ⟨hh, hmem, hrest⟩ := h1
        exact Or.inr ⟨hh, List.mem_cons_of_mem h hmem, hrest⟩
    · rintro (h1 | h1)
      · exact Or.inl (Or.inr h1)
      · obtain ⟨hh, hmem, hrest⟩ := h1
        rcases List.mem_cons.mp hmem with hmem | hmem
        · subst hmem
          exact Or.inl (Or.inl hrest)
        · exact Or.inr ⟨hh, hmem, hrest⟩

theorem upsert_map_fst_congr {α β : Type} (m : List (JsVal × α)) (m' : List (JsVal × β))
    (i : JsVal) (f : Option α → α) (g : Option β → β)
    (h : m.map Prod.fst = m'.map Prod.fst) :
    (upsert m i f).map Prod.fst = (upsert m' i g).map Prod.fst := by
  induction m generalizing m' with
  | nil =>
    cases m' with
    | nil => simp [upsert]
    | cons q u => simp at h
  | cons p t ih =>
    cases m' with
    | nil => simp at h
    | cons q u =>
      simp only [List.map_cons, List.cons.injEq] at h
      obtain ⟨h1, h2⟩ := h
      by_cases hp : p.1 = i
      · have hq : q.1 = i := h1 ▸ hp
        simp [upsert, hp, hq, h1, h2]
      · have hq : ¬ q.1 = i := h1 ▸ hp
        simp [upsert, hp, hq, h1, ih u h2]

theorem rrfList_keys_pair (k : ℚ) (l : List Hit) (r : ℕ) (st : RrfState)
    (h : st.1.map Prod.fst = st.2.map Prod.fst) :
    (rrfList k l r st).1.map Prod.fst = (rrfList k l r st).2.map Prod.fst := by
  induction l generalizing r st with
  | nil => simpa [rrfList]
  | cons hh t ih =>
    rw [rrfList]
    apply ih
    by_cases hv : validId hh.id = true
    · simp only [rrfStep, if_pos hv]
      exact upsert_map_fst_congr _ _ _ _ _ h
    · simpa [rrfStep, hv]

theorem rrfList_nodup (k : ℚ) (l : List Hit) (r : ℕ) (st : RrfState)
    (h : (st.1.map Prod.fst).Nodup) : ((rrfList k l r st).1.map Prod.fst).Nodup := by
  induction l generalizing r st with
  | nil => simpa [rrfList]
  | cons hh t ih =>
    rw [rrfList]
    apply ih
    by_cases hv : validId hh.id = true
    · simp only [rrfStep, if_pos hv]
      exact nodup_keys_upsert _ _ _ h
    · simpa [rrfStep, hv]

theorem rrfList_snd_lookup (k : ℚ) (l : List Hit) (r : ℕ) (st : RrfState) (i : JsVal) :
    jsLookup (rrfList k l r st).2 i =
      Option.or ((l.filter fun h => validId h.id && (h.id == i)).getLast?) (jsLookup st.2 i) := by
  induction l generalizing r st with
  | nil => simp [rrfList, Option.or]
  | cons h t ih =>
    rw [rrfList, ih]
    by_cases hP : (validId h.id && (h.id == i)) = true
    · have hv : validId h.id = true := (Bool.and_eq_true _ _).mp hP |>.1
      have hi : h.id = i := by
        have := (Bool.and_eq_true _ _).mp hP |>.2
        exact beq_iff_eq.mp this
      have hlook : jsLookup (rrfStep k r h st).2 i = some h := by
        subst hi
        simp only [rrfStep, if_pos hv]
        rw [jsLookup_upsert_self]
      have hfc : (h :: t).filter (fun g => validId g.id && (g.id == i))
          = h :: t.filter (fun g => validId g.id && (g.id == i)) :=
        List.filter_cons_of_pos hP
      rw [hlook, hfc, getLast?_cons_or, Option.or_assoc]
      congr 1
    · have hstep : jsLookup (rrfStep k r h st).2 i = jsLookup st.2 i := by
        by_cases hv : validId h.id = true
        · have hi : ¬ h.id = i := by
            intro hh
            apply hP
            rw [Bool.and_eq_true]
            exact ⟨hv, beq_iff_eq.mpr hh⟩
          simp only [rrfStep, if_pos hv]
          exact jsLookup_upsert_ne _ _ _ _ (fun hh => hi hh.symm)
        · simp [rrfStep, hv]
      have hfc : (h :: t).filter (fun g => validId g.id && (g.id == i))
          = t.filter (fun g => validId g.id && (g.id == i)) :=
        List.filter_cons_of_neg hP
      rw [hstep, hfc]

theorem rrfList_snd_mem (k : ℚ) (l : List Hit) (r : ℕ) (st : RrfState)
    (p : JsVal × Hit) (hp : p ∈ (rrfList k l r st).2) :
    p ∈ st.2 ∨ (p.2 ∈ l ∧ p.1 = p.2.id) := by
  induction l generalizing r st with
  | nil => exact Or.inl hp
  | cons h t ih =>
    rw [rrfList] at hp
    rcases ih _ _ hp with h1 | h1
    · by_cases hv : validId h.id = true
      · simp only [rrfStep, if_pos hv] at h1
        rcases mem_upsert _ _ _ _ h1 with h2 | h2
        · exact Or.inl h2
        · obtain ⟨hfst, _, hsnd⟩ := h2
          refine Or.inr ⟨hsnd ▸ List.mem_cons_self h t, ?_⟩
          rw [hsnd, hfst]
      · simp only [rrfStep, if_neg hv] at h1
        exact Or.inl h1
    · exact Or.inr ⟨List.mem_cons_of_mem h h1.1, h1.2⟩

theorem rrfList_fst_valid (k : ℚ) (l : List Hit) (r : ℕ) (st : RrfState)
    (p : JsVal × ℚ) (hp : p ∈ (rrfList k l r st).1) :
    p ∈ st.1 ∨ validId p.1 = true := by
  induction l generalizing r st with
  | nil => exact Or.inl hp
  | cons h t ih =>
    rw [rrfList] at hp
    rcases ih _ _ hp with h1 | h1
    · by_cases hv : validId h.id = true
      · simp only [rrfStep, if_pos hv] at h1
        rcases mem_upsert _ _ _ _ h1 with h2 | h2
        · exact Or.inl h2
        · exact Or.inr (h2.1 ▸ hv)
      · simp only [rrfStep, if_neg hv] at h1
        exact Or.inl h1
    · exact Or.inr h1

/-! ### Lifts to lists of result lists -/

theorem rrfAll_fst_lookupD (k : ℚ) (L : List (Option (List Hit))) (st : RrfState) (i : JsVal) :
    lookupD (rrfAll k L st).1 i = lookupD st.1 i + contribAll k i L := by
  induction L generalizing st with
  | nil => simp [rrfAll, contribAll]
  | cons ol rest ih =>
    cases ol with
    | none => rw [rrfAll, contribAll, ih]
    | some l => rw [rrfAll, contribAll, ih, rrfList_fst_lookupD, add_assoc]

theorem rrfAll_keys (k : ℚ) (L : List (Option (List Hit))) (st : RrfState) (j : JsVal) :
    j ∈ (rrfAll k L st).1.map Prod.fst ↔
      j ∈ st.1.map Prod.fst ∨ ∃ h ∈ flatHits L, validId h.id = true ∧ h.id = j := by
  induction L generalizing st with
  | nil => simp [rrfAll, flatHits]
  | cons ol rest ih =>
    cases ol with
    | none =>
      rw [rrfAll, ih, flatHits]
    | some l =>
      rw [rrfAll, ih, flatHits]
      rw [rrfList_keys]
      constructor
      · rintro ((h1 | h1) | h1)
        · exact Or.inl h1
        · obtain ⟨hh, hmem, hrest⟩ := h1
          exact Or.inr ⟨hh, List.mem_append.mpr (Or.inl hmem), hrest⟩
        · obtain ⟨hh, hmem, hrest⟩ := h1
          exact Or.inr ⟨hh, List.mem_append.mpr (Or.inr hmem), hrest⟩
      · rintro (h1 | h1)
        · exact Or.inl (Or.inl h1)
        · obtain ⟨hh, hmem, hrest⟩ := h1
          rcases List.mem_append.mp hmem with hmem | hmem
          · exact Or.inl (Or.inr ⟨hh, hmem, hrest⟩)
          · exact Or.inr ⟨hh, hmem, hrest⟩

theorem rrfAll_keys_pair (k : ℚ) (L : List (Option (List Hit))) (st : RrfState)
    (h : st.1.map Prod.fst = st.2.map Prod.fst) :
    (rrfAll k L st).1.map Prod.fst = (rrfAll k L st).2.map Prod.fst := by
  induction L generalizing st with
  | nil => simpa [rrfAll]
  | cons ol rest ih =>
    cases ol with
    | none => rw [rrfAll]; exact ih _ h
    | some l => rw [rrfAll]; exact ih _ (rrfList_keys_pair k l 1 st h)

theorem rrfAll_nodup (k : ℚ) (L : List (Option (List Hit))) (st : RrfState)
    (h : (st.1.map Prod.fst).Nodup) : ((rrfAll k L st).1.map Prod.fst).Nodup := by
  induction L generalizing st with
  | nil => simpa [rrfAll]
  | cons ol rest ih =>
    cases ol with
    | none => rw [rrfAll]; exact ih _ h
    | some l => rw [rrfAll]; exact ih _ (rrfList_nodup k l 1 st h)

theorem rrfAll_snd_lookup (k : ℚ) (L : List (Option (List Hit))) (st : RrfState) (i : JsVal) :
    jsLookup (rrfAll k L st).2 i =
      Option.or (((flatHits L).filter fun h => validId h.id && (h.id == i)).getLast?)
        (jsLookup st.2 i) := by
  induction L generalizing st with
  | nil => simp [rrfAll, flatHits, Option.or]
  | cons ol rest ih =>
    cases ol with
    | none => rw [rrfAll, flatHits, ih]
    | some l =>
      rw [rrfAll, flatHits, ih, rrfList_snd_lookup, List.filter_append, getLast?_append_or,
        Option.or_assoc]

theorem rrfAll_snd_mem (k : ℚ) (L : List (Option (List Hit))) (st : RrfState)
    (p : JsVal × Hit) (hp : p ∈ (rrfAll k L st).2) :
    p ∈ st.2 ∨ (p.2 ∈ flatHits L ∧ p.1 = p.2.id) := by
  induction L generalizing st with
  | nil => exact Or.inl hp
  | cons ol rest ih =>
    cases ol with
    | none =>
      rw [rrfAll] at hp
      rcases ih _ hp with h1 | h1
      · exact Or.inl h1
      · exact Or.inr ⟨h1.1, h1.2⟩
    | some l =>
      rw [rrfAll] at hp
      rcases ih _ hp with h1 | h1
      · rcases rrfList_snd_mem k l 1 st p h1 with h2 | h2
        · exact Or.inl h2
        · exact Or.inr ⟨by rw [flatHits]; exact List.mem_append.mpr (Or.inl h2.1), h2.2⟩
      · exact Or.inr ⟨by rw [flatHits]; exact List.mem_append.mpr (Or.inr h1.1), h1.2⟩

theorem rrfAll_fst_valid (k : ℚ) (L : List (Option (List Hit))) (st : RrfState)
    (p : JsVal × ℚ) (hp : p ∈ (rrfAll k L st).1) :
    p ∈ st.1 ∨ validId p.1 = true := by
  induction L generalizing st with
  | nil => exact Or.inl hp
  | cons ol rest ih =>
    cases ol with
    | none => rw [rrfAll] at hp; exact ih _ hp
    | some l =>
      rw [rrfAll] at hp
      rcases ih _ hp with h1 | h1
      · exact rrfList_fst_valid k l 1 st p h1
      · exact Or.inr h1

/-! ### Evaluating the contribution function -/

theorem contrib_eq_zero (k : ℚ) (i : JsVal) (l : List Hit) (r : ℕ)
    (h : i ∉ l.map (·.id)) : contrib k i l r = 0 := by
  induction l generalizing r with
  | nil => rfl
  | cons hh t ih =>
    simp only [List.map_cons, List.mem_cons] at h
    push_neg at h
    rw [contrib, if_neg (fun hc => h.1 hc.2.symm), ih (r + 1) h.2, zero_add]

theorem contrib_eq (k : ℚ) (i : JsVal) (l : List Hit) (r : ℕ)
    (hv : ∀ h ∈ l, validId h.id = true) (hn : (l.map (·.id)).Nodup) :
    contrib k i l r =
      if i ∈ l.map (·.id) then 1 / (k + (r : ℚ) + ((l.map (·.id)).indexOf i : ℚ)) else 0 := by
  induction l generalizing r with
  | nil => simp [contrib]
  | cons hh t ih =>
    simp only [List.map_cons, List.nodup_cons] at hn
    by_cases hi : hh.id = i
    · have hvh : validId hh.id = true := hv hh (List.mem_cons_self hh t)
      have hnt : i ∉ t.map (·.id) := hi ▸ hn.1
      rw [contrib, if_pos ⟨hvh, hi⟩, contrib_eq_zero k i t (r + 1) hnt, add_zero]
      have hmem : i ∈ (hh :: t).map (·.id) := by
        simp [hi]
      rw [if_pos hmem]
      have hidx : ((hh :: t).map (·.id)).indexOf i = 0 := by
        simp only [List.map_cons]
        rw [← hi]
        exact List.indexOf_cons_self _ _
      rw [hidx]
      norm_num
    · have hne1 : ¬ (validId hh.id = true ∧ hh.id = i) := fun hc => hi hc.2
      rw [contrib, if_neg hne1, zero_add,
        ih (r + 1) (fun h hm => hv h (List.mem_cons_of_mem hh hm)) hn.2]
      by_cases hmem : i ∈ t.map (·.id)
      · have hmem' : i ∈ (hh :: t).map (·.id) := by
          simp only [List.map_cons, List.mem_cons]
          exact Or.inr hmem
        rw [if_pos hmem, if_pos hmem']
        have hidx : ((hh :: t).map (·.id)).indexOf i = (t.map (·.id)).indexOf i + 1 := by
          simp only [List.map_cons]
          exact List.indexOf_cons_ne _ hi
        rw [hidx]
        push_cast
        ring_nf
      · have hmem' : i ∉ (hh :: t).map (·.id) := by
          simp only [List.map_cons, List.mem_cons]
          push_neg
          exact ⟨fun hc => hi hc.symm, hmem⟩
        rw [if_neg hmem, if_neg hmem']

/-! ### Top-level facts about `reciprocalRankFusion` -/

theorem fuseEntry_dist (m : List (JsVal × Hit)) (p : JsVal × ℚ) :
    (fuseEntry m p).dist = some p.2 := by
  rcases hlk : jsLookup m p.1 with _ | item <;> simp [fuseEntry, hlk]

theorem fuseEntry_id (m : List (JsVal × Hit)) (p : JsVal × ℚ)
    (hinv : ∀ q ∈ m, q.2.id = q.1) : (fuseEntry m p).id = p.1 := by
  rcases hlk : jsLookup m p.1 with _ | item
  · simp [fuseEntry, hlk]
  · have := hinv (p.1, item) (mem_of_jsLookup _ _ _ hlk)
    simpa [fuseEntry, hlk] using this

theorem rrf_snd_idkey (k : ℚ) (L : List (Option (List Hit))) :
    ∀ q ∈ (rrfAll k L ([], [])).2, q.2.id = q.1 := by
  intro q hq
  rcases rrfAll_snd_mem k L ([], []) q hq with h1 | h1
  · simp at h1
  · exact h1.2.symm

theorem rrf_mem (L : List (Option (List Hit))) (k : ℚ) (f : Hit)
    (hf : f ∈ reciprocalRankFusion L k) :
    ∃ p ∈ (rrfAll k L ([], [])).1, ∃ item : Hit,
      jsLookup (rrfAll k L ([], [])).2 p.1 = some item ∧
      f = {item with dist := some p.2} ∧ item.id = p.1 := by
  simp only [reciprocalRankFusion] at hf
  obtain ⟨p, hp, hfp⟩ := List.mem_map.mp hf
  have hpmem : p ∈ (rrfAll k L ([], [])).1 := (sortDesc_perm _).mem_iff.mp hp
  have hkeys : (rrfAll k L ([], [])).1.map Prod.fst = (rrfAll k L ([], [])).2.map Prod.fst :=
    rrfAll_keys_pair k L ([], []) rfl
  have hk2 : p.1 ∈ (rrfAll k L ([], [])).2.map Prod.fst :=
    hkeys ▸ List.mem_map_of_mem Prod.fst hpmem
  obtain ⟨item, hitem⟩ := jsLookup_isSome _ p.1 hk2
  have hid : item.id = p.1 := rrf_snd_idkey k L (p.1, item) (mem_of_jsLookup _ _ _ hitem)
  refine ⟨p, hpmem, item, hitem, ?_, hid⟩
  rw [← hfp]
  simp [fuseEntry, hitem]

theorem rrf_dist_lookup (L : List (Option (List Hit))) (k : ℚ) (f : Hit)
    (hf : f ∈ reciprocalRankFusion L k) :
    f.dist = jsLookup (rrfAll k L ([], [])).1 f.id := by
  obtain ⟨p, hpmem, item, hitem, hfeq, hid⟩ := rrf_mem L k f hf
  have hnodup : ((rrfAll k L ([], [])).1.map Prod.fst).Nodup :=
    rrfAll_nodup k L ([], []) (by simp)
  have hlk : jsLookup (rrfAll k L ([], [])).1 p.1 = some p.2 :=
    jsLookup_of_mem_nodup _ p hnodup hpmem
  subst hfeq
  simpa [hid] using hlk.symm

theorem rrf_sorted (L : List (Option (List Hit))) (k : ℚ) :
    (reciprocalRankFusion L k).Sorted (fun f g => g.dist.getD 0 ≤ f.dist.getD 0) := by
  simp only [reciprocalRankFusion]
  refine List.Pairwise.map _ ?_ (sorted_sortDesc _)
  intro a b hab
  rw [fuseEntry_dist, fuseEntry_dist]
  simpa using hab

theorem rrf_map_id (L : List (Option (List Hit))) (k : ℚ) :
    (reciprocalRankFusion L k).map (·.id) = (sortDesc (rrfAll k L ([], [])).1).map Prod.fst := by
  simp only [reciprocalRankFusion, List.map_map]
  apply List.map_congr_left
  intro p _
  exact fuseEntry_id _ p (rrf_snd_idkey k L)

/-! ### The single-list case -/

theorem scoreRow_keys (k : ℚ) (r : ℕ) (l : List Hit) :
    (scoreRow k r l).map Prod.fst = l.map (·.id) := by
  induction l generalizing r with
  | nil => simp [scoreRow]
  | cons h t ih => simp [scoreRow, ih]

theorem rrfList_fresh (k : ℚ) (l : List Hit) (r : ℕ) (s : List (JsVal × ℚ))
    (m : List (JsVal × Hit))
    (hv : ∀ h ∈ l, validId h.id = true) (hn : (l.map (·.id)).Nodup)
    (hs : ∀ h ∈ l, h.id ∉ s.map Prod.fst) (hm : ∀ h ∈ l, h.id ∉ m.map Prod.fst) :
    rrfList k l r (s, m) = (s ++ scoreRow k r l, m ++ hitRow l) := by
  induction l generalizing r s m with
  | nil => simp [rrfList, scoreRow, hitRow]
  | cons h t ih =>
    simp only [List.map_cons, List.nodup_cons] at hn
    have hvh : validId h.id = true := hv h (List.mem_cons_self h t)
    have step1 : upsert s h.id (fun prev => prev.getD 0 + 1 / (k + (r : ℚ)))
        = s ++ [(h.id, 1 / (k + (r : ℚ)))] := by
      rw [upsert_of_not_mem _ _ _ (hs h (List.mem_cons_self h t))]
      norm_num
    have step2 : upsert m h.id (fun _ => h) = m ++ [(h.id, h)] :=
      upsert_of_not_mem _ _ _ (hm h (List.mem_cons_self h t))
    have hstep : rrfStep k r h (s, m) = (s ++ [(h.id, 1 / (k + (r : ℚ)))], m ++ [(h.id, h)]) := by
      simp only [rrfStep, if_pos hvh]
      rw [step1, step2]
    have hfr1 : ∀ h' ∈ t, h'.id ∉ (s ++ [(h.id, 1 / (k + (r : ℚ)))]).map Prod.fst := by
      intro h' hh'
      simp only [List.map_append, List.mem_append, List.map_cons, List.map_nil,
        List.mem_singleton]
      push_neg
      refine ⟨hs h' (List.mem_cons_of_mem h hh'), fun he => ?_⟩
      exact hn.1 (he ▸ List.mem_map_of_mem (·.id) hh')
    have hfr2 : ∀ h' ∈ t, h'.id ∉ (m ++ [(h.id, h)]).map Prod.fst := by
      intro h' hh'
      simp only [List.map_append, List.mem_append, List.map_cons, List.map_nil,
        List.mem_singleton]
      push_neg
      refine ⟨hm h' (List.mem_cons_of_mem h hh'), fun he => ?_⟩
      exact hn.1 (he ▸ List.mem_map_of_mem (·.id) hh')
    rw [rrfList, hstep,
      ih (r + 1) _ _ (fun h' hh' => hv h' (List.mem_cons_of_mem h hh')) hn.2 hfr1 hfr2]
    simp [scoreRow, hitRow, List.append_assoc]

theorem scoreRow_snd_le (k : ℚ) (hk : 0 < k) (r : ℕ) (l : List Hit) :
    ∀ p ∈ scoreRow k r l, p.2 ≤ 1 / (k + (r : ℚ)) := by
  induction l generalizing r with
  | nil => simp [scoreRow]
  | cons h t ih =>
    intro p hp
    rw [scoreRow] at hp
    rcases List.mem_cons.mp hp with hp | hp
    · rw [hp]
    · refine le_trans (ih (r + 1) p hp) ?_
      apply one_div_le_one_div_of_le
      · positivity
      · push_cast
        linarith

theorem scoreRow_sorted (k : ℚ) (hk : 0 < k) (r : ℕ) (l : List Hit) :
    (scoreRow k r l).Sorted (fun a b => b.2 ≤ a.2) := by
  induction l generalizing r with
  | nil => simp [scoreRow]
  | cons h t ih =>
    rw [scoreRow]
    refine List.sorted_cons.mpr ⟨?_, ih (r + 1)⟩
    intro b hb
    refine le_trans (scoreRow_snd_le k hk (r + 1) t b hb) ?_
    apply one_div_le_one_div_of_le
    · positivity
    · push_cast
      linarith

theorem fuse_scoreRow (k : ℚ) (A : List Hit) (r : ℕ) (hn : (A.map (·.id)).Nodup) :
    (scoreRow k r A).map (fuseEntry (hitRow A)) = rankScored k r A := by
  induction A generalizing r with
  | nil => simp [scoreRow, rankScored]
  | cons h t ih =>
    simp only [List.map_cons, List.nodup_cons] at hn
    have hcongr : ∀ p ∈ scoreRow k (r + 1) t,
        fuseEntry (hitRow (h :: t)) p = fuseEntry (hitRow t) p := by
      intro p hp
      have hpk : p.1 ∈ t.map (·.id) := by
        rw [← scoreRow_keys k (r + 1) t]
        exact List.mem_map_of_mem Prod.fst hp
      have hne : ¬ h.id = p.1 := fun he => hn.1 (he ▸ hpk)
      simp only [fuseEntry, hitRow, List.map_cons, jsLookup, if_neg hne]
    rw [scoreRow, List.map_cons, rankScored]
    congr 1
    · simp [fuseEntry, hitRow, jsLookup]
    · rw [List.map_congr_left hcongr]
      exact ih (r + 1) hn.2

theorem rankScored_map_id (k : ℚ) (r : ℕ) (A : List Hit) :
    (rankScored k r A).map (·.id) = A.map (·.id) := by
  induction A generalizing r with
  | nil => rfl
  | cons h t ih => simp [rankScored, ih]

theorem rrf_single (A : List Hit) (hv : ∀ h ∈ A, validId h.id = true)
    (hn : (A.map (·.id)).Nodup) :
    reciprocalRankFusion [some A] 60 = rankScored 60 1 A := by
  have hall : rrfAll 60 [some A] ([], []) = (scoreRow 60 1 A, hitRow A) := by
    simp only [rrfAll]
    simpa using rrfList_fresh 60 A 1 [] [] hv hn (by simp) (by simp)
  simp only [reciprocalRankFusion, hall]
  rw [sortDesc_eq_self _ (scoreRow_sorted 60 (by norm_num) 1 A)]
  exact fuse_scoreRow 60 A 1 hn

/-! ### Claim C1 -/

/-- C1: for non-empty result lists `A` and `B`, each with pairwise-distinct
(and non-null) ids, `reciprocalRankFusion [A, B]` with `k = 60` returns
every id of `A ∪ B` exactly once, and the fused score attached to it (its
`dist`) is the sum, over the lists containing the id, of
`1/(60 + rank)` with the 1-based rank of the id in that list. -/
theorem C1_rrf_two_lists (A B : List Hit)
    (hA : A ≠ []) (hB : B ≠ [])
    (hvA : ∀ h ∈ A, validId h.id = true) (hvB : ∀ h ∈ B, validId h.id = true)
    (hnA : (A.map (·.id)).Nodup) (hnB : (B.map (·.id)).Nodup) :
    ∀ i : JsVal, (i ∈ A.map (·.id) ∨ i ∈ B.map (·.id)) →
      ((reciprocalRankFusion [some A, some B] 60).map (·.id)).count i = 1 ∧
      ∀ f ∈ reciprocalRankFusion [some A, some B] 60, f.id = i →
        f.dist = some
          ((if i ∈ A.map (·.id) then 1 / (60 + (rankIn A i : ℚ)) else 0) +
           (if i ∈ B.map (·.id) then 1 / (60 + (rankIn B i : ℚ)) else 0)) := by
  intro i hi
  have hkeymem : i ∈ (rrfAll 60 [some A, some B] ([], [])).1.map Prod.fst := by
    rw [rrfAll_keys]
    refine Or.inr ?_
    have hflat : flatHits [some A, some B] = A ++ B := by simp [flatHits]
    rcases hi with hi | hi
    · obtain ⟨h, hh, hid⟩ := List.mem_map.mp hi
      exact ⟨h, by rw [hflat]; exact List.mem_append.mpr (Or.inl hh), hvA h hh, hid⟩
    · obtain ⟨h, hh, hid⟩ := List.mem_map.mp hi
      exact ⟨h, by rw [hflat]; exact List.mem_append.mpr (Or.inr hh), hvB h hh, hid⟩
  have hnodup : ((rrfAll 60 [some A, some B] ([], [])).1.map Prod.fst).Nodup :=
    rrfAll_nodup 60 [some A, some B] ([], []) (by simp)
  refine ⟨?_, ?_⟩
  · rw [rrf_map_id,
      ((sortDesc_perm (rrfAll 60 [some A, some B] ([], [])).1).map Prod.fst).count_eq i]
    exact List.count_eq_one_of_mem hnodup hkeymem
  · intro f hf hfi
    obtain ⟨x, hx⟩ := jsLookup_isSome _ i hkeymem
    have hdist : f.dist = some x := by
      rw [rrf_dist_lookup [some A, some B] 60 f hf, hfi, hx]
    have hsum := rrfAll_fst_lookupD 60 [some A, some B] ([], []) i
    have hinit : lookupD ((([], []) : RrfState)).1 i = 0 := by simp [lookupD, jsLookup]
    rw [hinit, zero_add] at hsum
    have hx' : lookupD (rrfAll 60 [some A, some B] ([], [])).1 i = x := by
      rw [lookupD, hx, Option.getD_some]
    rw [hx'] at hsum
    have hcAll : contribAll 60 i [some A, some B] = contrib 60 i A 1 + contrib 60 i B 1 := by
      simp [contribAll]
    rw [hcAll, contrib_eq 60 i A 1 hvA hnA, contrib_eq 60 i B 1 hvB hnB] at hsum
    rw [hdist, hsum]
    congr 1
    by_cases hiA : i ∈ A.map (·.id) <;> by_cases hiB : i ∈ B.map (·.id) <;>
      simp [hiA, hiB, rankIn] <;> push_cast <;> ring_nf

/-- Closed instance of `C1_rrf_two_lists` on the lists `[x, a]` and `[x]`,
together with the literal check that the shared rank-1 id scores `2/61`. -/
theorem C1_witness :
    (((reciprocalRankFusion [some listAw, some listBw] 60).map (·.id)).count (.str "x") = 1 ∧
      ∀ f ∈ reciprocalRankFusion [some listAw, some listBw] 60, f.id = .str "x" →
        f.dist = some
          ((if (JsVal.str "x") ∈ listAw.map (·.id) then
              1 / (60 + (rankIn listAw (.str "x") : ℚ)) else 0) +
           (if (JsVal.str "x") ∈ listBw.map (·.id) then
              1 / (60 + (rankIn listBw (.str "x") : ℚ)) else 0))) ∧
    (reciprocalRankFusion [some listAw, some listBw] 60).map (·.dist)
      = [some (2 / 61), some (1 / 62)] :=
  ⟨C1_rrf_two_lists listAw listBw (by decide) (by decide) (by decide) (by decide)
      (by decide) (by decide) (.str "x") (by decide), by decide⟩

/-! ### Claim C4 -/

/-- C4: the output of `reciprocalRankFusion` is always ordered descending
by fusion score, and on a single list with distinct (non-null) ids the
fusion reduces to the pure rank-to-score transform: the hits come back in
exactly the order of `A`. -/
theorem C4_sorted_and_order :
    (∀ (L : List (Option (List Hit))) (k : ℚ),
      (reciprocalRankFusion L k).Sorted (fun f g => g.dist.getD 0 ≤ f.dist.getD 0)) ∧
    (∀ A : List Hit, (∀ h ∈ A, validId h.id = true) → (A.map (·.id)).Nodup →
      reciprocalRankFusion [some A] 60 = rankScored 60 1 A ∧
      (reciprocalRankFusion [some A] 60).map (·.id) = A.map (·.id)) :=
  ⟨rrf_sorted, fun A hv hn =>
    ⟨rrf_single A hv hn, by rw [rrf_single A hv hn, rankScored_map_id]⟩⟩

/-- Closed instance of `C4_sorted_and_order` on a concrete two-hit list. -/
theorem C4_witness :
    reciprocalRankFusion [some listC4w] 60 = rankScored 60 1 listC4w ∧
    (reciprocalRankFusion [some listC4w] 60).map (·.id) = listC4w.map (·.id) :=
  C4_sorted_and_order.2 listC4w (by decide) (by decide)

/-! ### Claim C10 -/

/-- C10: every fused result has a valid (non-null) id and carries exactly
the payload of the last valid occurrence of its id across the input lists
in traversal order (each later occurrence overwrites the stored hit);
hits whose id is `null`/`undefined` are skipped: no score entry and no
stored payload ever has an invalid key. -/
theorem C10_last_occurrence :
    (∀ (lists : List (Option (List Hit))) (f : Hit), f ∈ reciprocalRankFusion lists 60 →
      validId f.id = true ∧
      ∃ h : Hit,
        ((flatHits lists).filter fun g => validId g.id && (g.id == f.id)).getLast? = some h ∧
        f.attributes = h.attributes ∧ f.distance = h.distance ∧ f.id = h.id) ∧
    (∀ (lists : List (Option (List Hit))) (i : JsVal), validId i = false →
      jsLookup (rrfAll 60 lists ([], [])).1 i = none ∧
      jsLookup (rrfAll 60 lists ([], [])).2 i = none) := by
  constructor
  · intro lists f hf
    obtain ⟨p, hpmem, item, hitem, hfeq, hid⟩ := rrf_mem lists 60 f hf
    have hval : validId p.1 = true := by
      rcases rrfAll_fst_valid 60 lists ([], []) p hpmem with h1 | h1
      · simp at h1
      · exact h1
    have hfid : f.id = p.1 := by
      rw [hfeq]
      exact hid
    refine ⟨hfid ▸ hval, item, ?_, ?_, ?_, ?_⟩
    · have h2 := rrfAll_snd_lookup 60 lists ([], []) p.1
      rw [hitem] at h2
      rw [hfid]
      simpa [jsLookup, Option.or_none] using h2.symm
    · rw [hfeq]
    · rw [hfeq]
    · rw [hfeq]
  · intro lists i hi
    have h1 : i ∉ (rrfAll 60 lists ([], [])).1.map Prod.fst := by
      intro hmem
      obtain ⟨p, hp, hpi⟩ := List.mem_map.mp hmem
      rcases rrfAll_fst_valid 60 lists ([], []) p hp with hc | hc
      · simp at hc
      · rw [hpi, hi] at hc
        exact Bool.false_ne_true hc
    have h2 : i ∉ (rrfAll 60 lists ([], [])).2.map Prod.fst := by
      rw [← rrfAll_keys_pair 60 lists ([], []) rfl]
      exact h1
    exact ⟨jsLookup_eq_none _ _ h1, jsLookup_eq_none _ _ h2⟩

/-- Closed instance of `C10_last_occurrence`: with "x" in both lists, the
fused payload is the one from the second list. -/
theorem C10_witness :
    validId fusedXb.id = true ∧
    ∃ h : Hit,
      ((flatHits listsC10w).filter fun g => validId g.id && (g.id == fusedXb.id)).getLast?
        = some h ∧
      fusedXb.attributes = h.attributes ∧ fusedXb.distance = h.distance ∧ fusedXb.id = h.id :=
  C10_last_occurrence.1 listsC10w fusedXb (by decide)

/-! ### Dispatcher lemmas -/

theorem POST_hybrid_run (req : RequestData) (apiKey : Option String)
    (backend : QueryOptions → Except String (List Hit)) (web : Option String → FetchResult)
    (hmode : jsOr req.mode (jsOr req.search_type (.str "fulltext")) = .str "hybrid")
    (hq : isNonEmptyStr req.query = true) (hv : isNumArray req.vector = true) :
    POST (some req) apiKey backend web = runSearch (.str "hybrid") req apiKey backend web := by
  simp [POST, hmode, hq, hv]

theorem runSearch_hybrid_ok (req : RequestData) (apiKey : Option String)
    (backend : QueryOptions → Except String (List Hit)) (web : Option String → FetchResult)
    (A B : List Hit) (hkey : truthyKey apiKey = true)
    (hfts : backend (hybridFtsOptions req) = .ok A)
    (hvec : backend (hybridVectorOptions req) = .ok B) :
    runSearch (.str "hybrid") req apiKey backend web =
      (.results ((jsSlice (reciprocalRankFusion [some A, some B] 60) req.top_k).map
          (mkEntry web)),
       [hybridFtsOptions req, hybridVectorOptions req]) := by
  simp [runSearch, hkey, hfts, hvec]

theorem POST_hybrid_ok (req : RequestData) (apiKey : Option String)
    (backend : QueryOptions → Except String (List Hit)) (web : Option String → FetchResult)
    (A B : List Hit)
    (hmode : jsOr req.mode (jsOr req.search_type (.str "fulltext")) = .str "hybrid")
    (hq : isNonEmptyStr req.query = true) (hv : isNumArray req.vector = true)
    (hkey : truthyKey apiKey = true)
    (hfts : backend (hybridFtsOptions req) = .ok A)
    (hvec : backend (hybridVectorOptions req) = .ok B) :
    POST (some req) apiKey backend web =
      (.results ((jsSlice (reciprocalRankFusion [some A, some B] 60) req.top_k).map
          (mkEntry web)),
       [hybridFtsOptions req, hybridVectorOptions req]) := by
  rw [POST_hybrid_run req apiKey backend web hmode hq hv]
  exact runSearch_hybrid_ok req apiKey backend web A B hkey hfts hvec

theorem runSearch_hybrid_err (req : RequestData) (apiKey : Option String)
    (backend : QueryOptions → Except String (List Hit)) (web : Option String → FetchResult)
    (hkey : truthyKey apiKey = true)
    (hfail : (∃ e, backend (hybridFtsOptions req) = .error e) ∨
             (∃ e, backend (hybridVectorOptions req) = .error e)) :
    ∃ d, runSearch (.str "hybrid") req apiKey backend web
        = (.error 500 "Internal Server Error" (some d),
           [hybridFtsOptions req, hybridVectorOptions req]) := by
  rcases hfail with ⟨e, he⟩ | ⟨e, he⟩
  · exact ⟨e, by simp [runSearch, hkey, he]⟩
  · rcases hfts : backend (hybridFtsOptions req) with e' | A
    · exact ⟨e', by simp [runSearch, hkey, hfts]⟩
    · exact ⟨e, by simp [runSearch, hkey, hfts, he]⟩

theorem mem_jsSlice {α : Type} (l : List α) (v : JsVal) (a : α) (h : a ∈ jsSlice l v) :
    a ∈ l := by
  rcases v with _ | _ | b | q | s | xs
  · exact h
  all_goals
    simp only [jsSlice] at h
    split at h <;> exact List.take_subset _ _ h

theorem runSearch_results_shape (mode : JsVal) (req : RequestData) (apiKey : Option String)
    (backend : QueryOptions → Except String (List Hit)) (web : Option String → FetchResult)
    (entries : List ResponseEntry) (log : List QueryOptions)
    (h : runSearch mode req apiKey backend web = (.results entries, log)) :
    ∃ hs : List Hit, entries = hs.map (mkEntry web) := by
  simp only [runSearch] at h
  split at h
  · simp at h
  · split at h
    · split at h
      · simp at h
      · simp at h
      · rw [Prod.mk.injEq] at h
        exact ⟨_, (Response.results.inj h.1).symm⟩
    · split at h
      · simp at h
      · rw [Prod.mk.injEq] at h
        exact ⟨_, (Response.results.inj h.1).symm⟩

theorem POST_results_shape (body : Option RequestData) (apiKey : Option String)
    (backend : QueryOptions → Except String (List Hit)) (web : Option String → FetchResult)
    (entries : List ResponseEntry) (log : List QueryOptions)
    (h : POST body apiKey backend web = (.results entries, log)) :
    ∃ hs : List Hit, entries = hs.map (mkEntry web) := by
  rcases body with _ | req
  · simp [POST] at h
  · simp only [POST] at h
    split at h
    · split at h
      · simp at h
      · exact runSearch_results_shape _ _ _ _ _ _ _ h
    · split at h
      · split at h
        · simp at h
        · exact runSearch_results_shape _ _ _ _ _ _ _ h
      · split at h
        · split at h
          · simp at h
          · exact runSearch_results_shape _ _ _ _ _ _ _ h
        · split at h
          · split at h
            · simp at h
            · split at h
              · simp at h
              · exact runSearch_results_shape _ _ _ _ _ _ _ h
          · simp at h

/-! ### Claim C2 -/

/-- C2 is false on the code: with `top_k` absent, the hybrid branch does
not default to 20 — both sub-queries carry `top_k: undefined` and
`slice(0, undefined)` leaves the fused list untruncated, so a backend
returning 21 hits yields 21 response entries. -/
theorem C2_counterexample :
    ¬ (((POST (some reqHybridNoTopK) (some "key") backend21 webNone).2.map QueryOptions.top_k
          = [.num 20, .num 20]) ∧
       respLen (POST (some reqHybridNoTopK) (some "key") backend21 webNone).1 ≤ 20) := by
  decide

/-- C2 (amended): the hybrid branch passes the request's `top_k` value
through unchanged to both sub-queries and slices the fused output with
that raw value — an absent `top_k` means both backend calls carry
`undefined` and the fused output is returned whole; the
`top_k_from_request || 20` default applies only to the non-hybrid
options object. -/
theorem C2_amended_passthrough (req : RequestData) (apiKey : Option String)
    (backend : QueryOptions → Except String (List Hit)) (web : Option String → FetchResult)
    (A B : List Hit)
    (hmode : jsOr req.mode (jsOr req.search_type (.str "fulltext")) = .str "hybrid")
    (hq : isNonEmptyStr req.query = true) (hv : isNumArray req.vector = true)
    (hkey : truthyKey apiKey = true)
    (hfts : backend (hybridFtsOptions req) = .ok A)
    (hvec : backend (hybridVectorOptions req) = .ok B) :
    (POST (some req) apiKey backend web).2.map QueryOptions.top_k = [req.top_k, req.top_k] ∧
    (POST (some req) apiKey backend web).1
      = .results ((jsSlice (reciprocalRankFusion [some A, some B] 60) req.top_k).map
          (mkEntry web)) ∧
    (req.top_k = .undef →
      (POST (some req) apiKey backend web).1
        = .results ((reciprocalRankFusion [some A, some B] 60).map (mkEntry web))) ∧
    (singleQueryOptions (.str "fulltext") req).top_k
      = (if truthy req.top_k then req.top_k else .num 20) := by
  have hpost := POST_hybrid_ok req apiKey backend web A B hmode hq hv hkey hfts hvec
  refine ⟨?_, ?_, ?_, ?_⟩
  · rw [hpost]
    simp [hybridFtsOptions, hybridVectorOptions]
  · rw [hpost]
  · intro ht
    rw [hpost]
    simp [ht, jsSlice]
  · simp [singleQueryOptions]

/-- Closed instance of `C2_amended_passthrough`: both issued calls carry
the request's (absent) `top_k`. -/
theorem C2_witness :
    (POST (some reqHybridNoTopK) (some "key") backend21 webNone).2.map QueryOptions.top_k
      = [reqHybridNoTopK.top_k, reqHybridNoTopK.top_k] :=
  (C2_amended_passthrough reqHybridNoTopK (some "key") backend21 webNone hits21 []
    (by decide) (by decide) (by decide) (by decide) (by rfl) (by rfl)).1

/-! ### Claim C3 -/

/-- C3 is false on the code: a semantic request with an empty `vector`
array passes validation (the response is not a 400) and a backend call is
issued. -/
theorem C3_counterexample :
    ¬ (is400 (POST (some reqSemanticEmptyVec) (some "key") backendEmpty webNone).1 = true ∧
       (POST (some reqSemanticEmptyVec) (some "key") backendEmpty webNone).2 = []) := by
  decide

/-- C3 (amended): a semantic request is rejected with a 400 and no
backend call exactly when its `vector` is not an array of numbers; the
empty array counts as an array of numbers, so it passes validation and
reaches the backend. -/
theorem C3_amended_validation (req : RequestData) (apiKey : Option String)
    (backend : QueryOptions → Except String (List Hit)) (web : Option String → FetchResult)
    (hmode : jsOr req.mode (jsOr req.search_type (.str "fulltext")) = .str "semantic")
    (hv : isNumArray req.vector = false) :
    POST (some req) apiKey backend web
      = (.error 400 "Semantic search requires a valid \"vector\" (array of numbers)." none,
         []) ∧
    isNumArray (.arr []) = true := by
  refine ⟨?_, by decide⟩
  simp [POST, hmode, hv]

/-- Closed instance of `C3_amended_validation` on a `null` vector. -/
theorem C3_witness :
    POST (some reqSemanticBadVec) (some "key") backendEmpty webNone
      = (.error 400 "Semantic search requires a valid \"vector\" (array of numbers)." none,
         []) ∧
    isNumArray (.arr []) = true :=
  C3_amended_validation reqSemanticBadVec (some "key") backendEmpty webNone
    (by decide) (by decide)

/-! ### Claim C5 -/

/-- C5: for a validated hybrid request with the credential present, if
either of the two concurrently issued sub-queries fails, the whole
request fails with a 500 "Internal Server Error" response carrying the
failure's message as details, and the response is never a result list —
no partial results from the surviving sub-query are returned. -/
theorem C5_hybrid_join_failure (req : RequestData) (apiKey : Option String)
    (backend : QueryOptions → Except String (List Hit)) (web : Option String → FetchResult)
    (hmode : jsOr req.mode (jsOr req.search_type (.str "fulltext")) = .str "hybrid")
    (hq : isNonEmptyStr req.query = true) (hv : isNumArray req.vector = true)
    (hkey : truthyKey apiKey = true)
    (hfail : (∃ e, backend (hybridFtsOptions req) = .error e) ∨
             (∃ e, backend (hybridVectorOptions req) = .error e)) :
    ∃ d, POST (some req) apiKey backend web
        = (.error 500 "Internal Server Error" (some d),
           [hybridFtsOptions req, hybridVectorOptions req]) ∧
      ∀ es, (POST (some req) apiKey backend web).1 ≠ .results es := by
  rw [POST_hybrid_run req apiKey backend web hmode hq hv]
  obtain ⟨d, hd⟩ := runSearch_hybrid_err req apiKey backend web hkey hfail
  refine ⟨d, hd, ?_⟩
  intro es hcontra
  rw [hd] at hcontra
  exact Response.noConfusion hcontra

/-- Closed instance of `C5_hybrid_join_failure` on a backend double whose
calls all fail. -/
theorem C5_witness :
    ∃ d, POST (some reqHybridNoTopK) (some "key") backendFail webNone
        = (.error 500 "Internal Server Error" (some d),
           [hybridFtsOptions reqHybridNoTopK, hybridVectorOptions reqHybridNoTopK]) ∧
      ∀ es, (POST (some reqHybridNoTopK) (some "key") backendFail webNone).1
        ≠ .results es :=
  C5_hybrid_join_failure reqHybridNoTopK (some "key") backendFail webNone
    (by decide) (by decide) (by decide) (by decide) (Or.inl ⟨"boom", rfl⟩)

/-! ### Claim C6 -/

/-- C6 is false on the code: fusion writes the RRF score to the hit's
`dist` property, but the response maps `distance: result.distance`, so
the response entry's numeric field is the hit's original `distance`
property, not the fusion score. Here the only fused hit has fusion score
`1/61`, yet the response carries `7`, its backend distance. -/
theorem C6_counterexample :
    (reciprocalRankFusion [some [hitDist7], some []] 60).map (·.dist) = [some (1 / 61)] ∧
    respDistances (POST (some reqHybridNoTopK) (some "key") backendDist7 webNone).1
      = [some 7] ∧
    some (7 : ℚ) ≠ some ((1 : ℚ) / 61) := by
  refine ⟨by decide, by decide, by decide⟩

/-- C6 (amended): each hybrid response entry's `distance` is the original
`distance` property of the backend hit with that id; the fusion score is
written to the hit's `dist` property (every fused hit's `dist` equals its
looked-up fusion score) and does not reach the response. -/
theorem C6_amended_dist (req : RequestData) (apiKey : Option String)
    (backend : QueryOptions → Except String (List Hit)) (web : Option String → FetchResult)
    (A B : List Hit)
    (hmode : jsOr req.mode (jsOr req.search_type (.str "fulltext")) = .str "hybrid")
    (hq : isNonEmptyStr req.query = true) (hv : isNumArray req.vector = true)
    (hkey : truthyKey apiKey = true)
    (hfts : backend (hybridFtsOptions req) = .ok A)
    (hvec : backend (hybridVectorOptions req) = .ok B) :
    ∃ es, (POST (some req) apiKey backend web).1 = .results es ∧
      (∀ e ∈ es, ∃ h : Hit, (h ∈ A ∨ h ∈ B) ∧ e.id = h.id ∧ e.distance = h.distance) ∧
      (∀ f ∈ reciprocalRankFusion [some A, some B] 60,
        f.dist = jsLookup (rrfAll 60 [some A, some B] ([], [])).1 f.id) := by
  have hpost := POST_hybrid_ok req apiKey backend web A B hmode hq hv hkey hfts hvec
  refine ⟨_, by rw [hpost], ?_, fun f hf => rrf_dist_lookup _ 60 f hf⟩
  intro e he
  obtain ⟨f, hfslice, hef⟩ := List.mem_map.mp he
  have hfr : f ∈ reciprocalRankFusion [some A, some B] 60 := mem_jsSlice _ _ _ hfslice
  obtain ⟨p, hpmem, item, hitem, hfeq, hid⟩ := rrf_mem [some A, some B] 60 f hfr
  have hitemmem : item ∈ flatHits [some A, some B] := by
    have hmem2 := mem_of_jsLookup _ _ _ hitem
    rcases rrfAll_snd_mem 60 [some A, some B] ([], []) (p.1, item) hmem2 with hc | hc
    · simp at hc
    · exact hc.1
  have hAB : item ∈ A ++ B := by
    have : flatHits [some A, some B] = A ++ B := by simp [flatHits]
    rw [← this]
    exact hitemmem
  refine ⟨item, List.mem_append.mp hAB, ?_, ?_⟩
  · rw [← hef, hfeq]
    rfl
  · rw [← hef, hfeq]
    rfl

/-- Closed instance of `C6_amended_dist`. -/
theorem C6_witness :
    ∃ es, (POST (some reqHybridNoTopK) (some "key") backendDist7 webNone).1 = .results es ∧
      (∀ e ∈ es, ∃ h : Hit, (h ∈ [hitDist7] ∨ h ∈ ([] : List Hit)) ∧
        e.id = h.id ∧ e.distance = h.distance) ∧
      (∀ f ∈ reciprocalRankFusion [some [hitDist7], some []] 60,
        f.dist = jsLookup (rrfAll 60 [some [hitDist7], some []] ([], [])).1 f.id) :=
  C6_amended_dist reqHybridNoTopK (some "key") backendDist7 webNone [hitDist7] []
    (by decide) (by decide) (by decide) (by decide) (by rfl) (by rfl)

/-! ### Claim C7 -/

/-- C7: every hybrid-mode request whose `vector` is missing or not an
array of numbers is answered with a 400 error and an empty backend call
log — no retrieval call is made (the request may also fail the earlier
query check, still a 400 with no call). -/
theorem C7_hybrid_invalid_vector (req : RequestData) (apiKey : Option String)
    (backend : QueryOptions → Except String (List Hit)) (web : Option String → FetchResult)
    (hmode : jsOr req.mode (jsOr req.search_type (.str "fulltext")) = .str "hybrid")
    (hv : isNumArray req.vector = false) :
    ∃ msg, POST (some req) apiKey backend web = (.error 400 msg none, []) := by
  by_cases hq : isNonEmptyStr req.query = true
  · exact ⟨"Hybrid search requires a valid \"vector\" (array of numbers).",
      by simp [POST, hmode, hq, hv]⟩
  · have hq' : isNonEmptyStr req.query = false := by
      rwa [Bool.not_eq_true] at hq
    exact ⟨"Hybrid search requires a non-empty \"query\" string.",
      by simp [POST, hmode, hq']⟩

/-- Closed instance of `C7_hybrid_invalid_vector` on a hybrid request
with no `vector` field. -/
theorem C7_witness :
    ∃ msg, POST (some reqHybridNoVec) (some "key") backendEmpty webNone
      = (.error 400 msg none, []) :=
  C7_hybrid_invalid_vector reqHybridNoVec (some "key") backendEmpty webNone
    (by decide) (by decide)

/-! ### Claim C9 -/

/-- C9: every entry of any 200 response (any mode) is built by the shared
per-result mapping from some backend hit: its `title` is a string that
falls back to "N/A" when the hit's attributes are missing or the title
is absent/empty, its `url` falls back to "#" likewise, its `ogImage` is
exactly the (string-or-null) result of the og:image fetch on the hit's
url, and its `distance` is the hit's `distance` property. -/
theorem C9_entry_shape (body : Option RequestData) (apiKey : Option String)
    (backend : QueryOptions → Except String (List Hit)) (web : Option String → FetchResult)
    (entries : List ResponseEntry) (log : List QueryOptions)
    (h : POST body apiKey backend web = (.results entries, log)) :
    ∀ e ∈ entries, ∃ hHit : Hit, e = mkEntry web hHit ∧
      (hHit.attributes = none → e.title = "N/A" ∧ e.url = "#") ∧
      (∀ a, hHit.attributes = some a →
        ((a.title = none ∨ a.title = some "") → e.title = "N/A") ∧
        ((a.url = none ∨ a.url = some "") → e.url = "#")) ∧
      e.ogImage = fetchOgImage (hHit.attributes.getD ⟨none, none⟩).url
        (web (hHit.attributes.getD ⟨none, none⟩).url) ∧
      e.distance = hHit.distance := by
  intro e he
  obtain ⟨hs, hes⟩ := POST_results_shape body apiKey backend web entries log h
  subst hes
  obtain ⟨hHit, hmem, hemk⟩ := List.mem_map.mp he
  refine ⟨hHit, hemk.symm, ?_, ?_, ?_, ?_⟩
  · intro hnone
    rw [← hemk]
    simp [mkEntry, hnone, jsStrOr]
  · intro a ha
    constructor <;> intro hcase <;> rw [← hemk] <;> rcases hcase with hc | hc <;>
      simp [mkEntry, ha, hc, jsStrOr]
  · rw [← hemk]
    rfl
  · rw [← hemk]
    rfl

/-- Closed instance of `C9_entry_shape`: a hit with no attributes maps to
the entry with title "N/A", url "#", and a null (but present) ogImage. -/
theorem C9_witness :
    ∃ hHit : Hit, entryBare = mkEntry webNone hHit ∧
      (hHit.attributes = none → entryBare.title = "N/A" ∧ entryBare.url = "#") ∧
      (∀ a, hHit.attributes = some a →
        ((a.title = none ∨ a.title = some "") → entryBare.title = "N/A") ∧
        ((a.url = none ∨ a.url = some "") → entryBare.url = "#")) ∧
      entryBare.ogImage = fetchOgImage (hHit.attributes.getD ⟨none, none⟩).url
        (webNone (hHit.attributes.getD ⟨none, none⟩).url) ∧
      entryBare.distance = hHit.distance :=
  C9_entry_shape (some reqFulltextW) (some "key") backendBare webNone [entryBare]
    [singleQueryOptions (.str "fulltext") reqFulltextW] (by decide) entryBare (by decide)

/-! ### Claim C8 -/

/-- C8: `fetchOgImage` is a total function into an optional string (the
embedding of "never raises to its caller"), and it returns `some u`
exactly when the url is a non-empty string starting with "http", the
fetch produced an ok response of HTML content type, and the page's
og:image content is the non-empty "http"-prefixed URL `u`; in every
other situation — missing/empty/non-http url, thrown fetch error, the
5-second abort, a non-OK status, a missing or non-HTML content type, a
missing og:image tag, or a relative/invalid content value — it returns
`none`. -/
theorem C8_fetchOgImage_spec :
    ∀ (url : Option String) (outcome : FetchResult) (u : String),
      fetchOgImage url outcome = some u ↔
        (∃ s, url = some s ∧ s ≠ "" ∧ strStarts s "http" = true) ∧
        (∃ p, outcome = .page p ∧ p.ok = true ∧
          (∃ ct, p.contentType = some ct ∧ strIncludes ct "text/html" = true) ∧
          p.ogImageContent = some u ∧ u ≠ "" ∧ strStarts u "http" = true) := by
  intro url outcome u
  rcases url with _ | s
  · simp [fetchOgImage]
  rcases outcome with _ | _ | p
  · by_cases h1 : s = "" <;> by_cases h2 : strStarts s "http" = true <;>
      simp [fetchOgImage, h1, h2]
  · by_cases h1 : s = "" <;> by_cases h2 : strStarts s "http" = true <;>
      simp [fetchOgImage, h1, h2]
  · obtain ⟨pok, pct, pog⟩ := p
    rcases pct with _ | ct
    · by_cases h1 : s = "" <;> by_cases h2 : strStarts s "http" = true <;>
        cases pok <;> simp [fetchOgImage, h1, h2]
    · rcases pog with _ | og
      · by_cases h1 : s = "" <;> by_cases h2 : strStarts s "http" = true <;>
          cases pok <;> by_cases h3 : strIncludes ct "text/html" = true <;>
          simp [fetchOgImage, h1, h2, h3]
      · by_cases h1 : s = "" <;> by_cases h2 : strStarts s "http" = true <;>
          cases pok <;> by_cases h3 : strIncludes ct "text/html" = true <;>
          by_cases h4 : og = "" <;> by_cases h5 : strStarts og "http" = true <;>
          simp [fetchOgImage, h1, h2, h3, h4, h5] <;>
          aesop

/-- Closed instance of `C8_fetchOgImage_spec`: a successful extraction. -/
theorem C8_witness :
    fetchOgImage (some "https://example.com") (.page pageOkW) = some "http://img.png" :=
  (C8_fetchOgImage_spec (some "https://example.com") (.page pageOkW) "http://img.png").mpr
    ⟨⟨"https://example.com", rfl, by decide, by decide⟩,
     ⟨pageOkW, rfl, rfl, ⟨"text/html; charset=utf-8", rfl, by decide⟩, rfl, by decide,
      by decide⟩⟩
